import Mathlib

/-!
Verification of the RESHAPE intrinsic of the f18 Fortran runtime
(`src/runtime/transformational.cc`), against its natural-language
specification.

The embedding models the runtime `Descriptor` as a self-describing array
handle (element byte size, per-dimension lower bound and extent, raw byte
storage, optional addendum for derived-type information), and `RESHAPE`
as an `Except`-valued function in which `.error` stands for the fatal
`CHECK`/`CRASH_NO_CASE`/null-dereference terminations of the C++ code.

Descriptor iteration primitives (`GetLowerBounds`, `IncrementSubscripts`,
`Element`) and `Descriptor::Create`/`Allocate` live in `descriptor.h`,
which is not part of the sources under verification; they are modelled
from the specification (natural-order odometer traversal with wraparound,
contiguous column-major storage, creation with an attached addendum).
-/

set_option autoImplicit false

namespace Fortran.runtime

/-- One dimension of a descriptor: lower bound and extent. -/
structure Dimension where
  lowerBound : Int
  extent : Int
deriving DecidableEq, Repr

/-- Derived type information: only the number of length type parameters
matters to RESHAPE. -/
structure DerivedType where
  lenParameters : Nat
deriving DecidableEq, Repr

/-- Descriptor addendum: optional derived type reference, length type
parameter values, and the DoNotFinalize flag bit. -/
structure DescriptorAddendum where
  derivedType : Option DerivedType
  lenParameterValues : List Int
  doNotFinalize : Bool
deriving DecidableEq, Repr

/-- A runtime array descriptor: element type tag (only integer-ness is
relevant here), element byte size, dimensions, raw byte storage, and an
optional addendum. -/
structure Descriptor where
  typeIsInteger : Bool
  elementBytes : Nat
  dims : List Dimension
  data : List Nat
  addendum : Option DescriptorAddendum
deriving DecidableEq, Repr

/-- `CFI_MAX_RANK`, the fixed maximum rank bound. -/
def maxRank : Nat := 15

def Descriptor.rank (d : Descriptor) : Nat := d.dims.length

/-- Total element count: the product of the extents (empty product = 1). -/
def totalElements (dims : List Dimension) : Nat :=
  (dims.map fun d => d.extent.toNat).prod

def Descriptor.elements (d : Descriptor) : Nat := totalElements d.dims

def Descriptor.extentAt (d : Descriptor) (j : Nat) : Int :=
  (d.dims.getD j ⟨1, 0⟩).extent

def Descriptor.lowerBoundAt (d : Descriptor) (j : Nat) : Int :=
  (d.dims.getD j ⟨1, 0⟩).lowerBound

/-- Modelled from the spec: `Descriptor::GetLowerBounds` writes each
dimension lower bound into a subscript tuple. -/
def lowerBounds (dims : List Dimension) : List Int :=
  dims.map fun d => d.lowerBound

/-- Linear (column-major) index of a subscript tuple: dimension 0 varies
fastest, matching the contiguous byte strides established by `Allocate`. -/
def linearIndex : List Dimension → List Int → Int
  | d :: ds, s :: ss => (s - d.lowerBound) + d.extent * linearIndex ds ss
  | _, _ => 0

/-- Modelled from the spec: `Descriptor::Element` addressing, as the byte
offset of a subscript tuple in contiguous column-major storage. -/
def byteOffset (eb : Nat) (dims : List Dimension) (subs : List Int) : Int :=
  (eb : Int) * linearIndex dims subs

/-- Read `n` bytes starting at byte offset `off`. -/
def readBytes (data : List Nat) (off n : Nat) : List Nat :=
  (List.range n).map fun i => data.getD (off + i) 0

/-- Write the byte list `bs` into `data` starting at offset `off`
(`memcpy` into the result buffer). -/
def writeBytes : List Nat → Nat → List Nat → List Nat
  | data, _, [] => data
  | data, off, b :: bs => writeBytes (data.set off b) (off + 1) bs

/-- Little-endian unsigned value of a byte list. -/
def decodeUnsigned : List Nat → Nat
  | [] => 0
  | b :: bs => b + 256 * decodeUnsigned bs

/-- Reinterpret a `w`-byte unsigned value as a two\x27s-complement signed
integer. -/
def toSigned (w : Nat) (v : Nat) : Int :=
  if v < 2 ^ (8 * w - 1) then (v : Int) else (v : Int) - 2 ^ (8 * w)

/-- `GetInt64` of `transformational.cc`: load an 8/16/32/64-bit integer
(byte-width tag 1, 2, 4 or 8) at byte offset `off` and widen it to a
64-bit signed value; any other width is the fatal `CRASH_NO_CASE`,
modelled as `none`. -/
def GetInt64 (data : List Nat) (off : Nat) (bytes : Nat) : Option Int :=
  if bytes = 1 ∨ bytes = 2 ∨ bytes = 4 ∨ bytes = 8 then
    some (toSigned bytes (decodeUnsigned (readBytes data off bytes)))
  else none

/-- Modelled from the spec: `Descriptor::IncrementSubscripts` with no
permutation — advance the subscript tuple one step in natural order
(dimension 0 fastest), resetting a dimension to its lower bound and
carrying when it passes its upper bound; a full odometer wraps back to
the lower bounds. -/
def incrementSubscripts : List Dimension → List Int → List Int
  | d :: ds, s :: ss =>
    if s + 1 < d.lowerBound + d.extent then (s + 1) :: ss
    else d.lowerBound :: incrementSubscripts ds ss
  | _, ss => ss

/-- Modelled from the spec: `Descriptor::IncrementSubscripts` with a
permutation — the `j`-th dimension advanced in the carry sequence is
`perm[j]`. -/
def incrementSubscriptsOrdered (dims : List Dimension) :
    List Nat → List Int → List Int
  | [], subs => subs
  | k :: ks, subs =>
    match dims[k]?, subs[k]? with
    | some d, some s =>
      if s + 1 < d.lowerBound + d.extent then subs.set k (s + 1)
      else incrementSubscriptsOrdered dims ks (subs.set k d.lowerBound)
    | _, _ => subs

/-- The `i`-th subscript tuple of a dimension list in natural traversal
order (mixed-radix decomposition of `i`, dimension 0 fastest). -/
def subAt : List Dimension → Nat → List Int
  | [], _ => []
  | d :: ds, i =>
    (d.lowerBound + ((i % d.extent.toNat : Nat) : Int)) ::
      subAt ds (i / d.extent.toNat)

/-- One element-copy loop of RESHAPE: repeat `n` times the body
"memcpy `eb` bytes from the current `from` element to the current result
element, advance the `from` cursor in natural order, advance the result
cursor through `dimOrder`".  Returns the final result cursor and the
updated result bytes.  Instantiated once with the source as `from` and
once with the pad. -/
def transferLoop (fromData : List Nat) (fromDims : List Dimension) (eb : Nat)
    (resDims : List Dimension) (dimOrder : List Nat) :
    Nat → List Int → List Int → List Nat → List Int × List Nat
  | 0, _, resSub, resData => (resSub, resData)
  | n + 1, fromSub, resSub, resData =>
    transferLoop fromData fromDims eb resDims dimOrder n
      (incrementSubscripts fromDims fromSub)
      (incrementSubscriptsOrdered resDims dimOrder resSub)
      (writeBytes resData (byteOffset eb resDims resSub).toNat
        (readBytes fromData (byteOffset eb fromDims fromSub).toNat eb))

/-- The shape-reading loop of RESHAPE: decode `n` extents from the shape
descriptor via `GetInt64` at the shape element width, starting at shape
subscript `s`; each must be nonnegative (`CHECK(resultExtent[j] >= 0)`). -/
def readShape (shape : Descriptor) : Nat → Int → Except String (List Int)
  | 0, _ => .ok []
  | n + 1, s =>
    match GetInt64 shape.data (byteOffset shape.elementBytes shape.dims [s]).toNat
        shape.elementBytes with
    | none => .error "GetInt64: CRASH_NO_CASE"
    | some v =>
      if 0 ≤ v then
        match readShape shape n (s + 1) with
        | .ok rest => .ok (v :: rest)
        | .error e => .error e
      else .error "CHECK resultExtent nonneg"

/-- Decode one ORDER= element at order subscript `s`.  `decodeBytes` is
the byte width handed to `GetInt64`; the code passes `shapeElementBytes`
here, not the order descriptor element width. -/
def orderValue (ord : Descriptor) (decodeBytes : Nat) (s : Int) : Option Int :=
  GetInt64 ord.data (byteOffset ord.elementBytes ord.dims [s]).toNat decodeBytes

/-- The ORDER=-reading loop: decode `n` values starting at order
subscript `s` and 0-based position `j`; each decoded `k` must satisfy
`1 <= k <= resultRank` and be previously unseen (`values` bitset), and
sets `dimOrder[k-1] = j`. -/
def orderLoop (ord : Descriptor) (decodeBytes : Nat) (resultRank : Nat) :
    Nat → Int → Nat → List Bool → List Nat → Except String (List Nat)
  | 0, _, _, _, dimOrder => .ok dimOrder
  | n + 1, s, j, seen, dimOrder =>
    match orderValue ord decodeBytes s with
    | none => .error "GetInt64: CRASH_NO_CASE"
    | some k =>
      if 1 ≤ k ∧ k ≤ (resultRank : Int) ∧ seen.getD (k - 1).toNat false = false then
        orderLoop ord decodeBytes resultRank n (s + 1) (j + 1)
          (seen.set (k - 1).toNat true) (dimOrder.set (k - 1).toNat j)
      else .error "CHECK order value"

/-- The dimension-order derivation of RESHAPE: with ORDER= absent,
`dimOrder[j] = j`; with ORDER= present, check rank 1, integer type and
length `resultRank`, then run `orderLoop` from the order lower bound over
a cleared `maxRank`-bit `values` bitset. -/
def computeDimOrder (order : Option Descriptor) (shapeElementBytes : Nat)
    (resultRank : Nat) : Except String (List Nat) :=
  match order with
  | none => .ok (List.range resultRank)
  | some ord =>
    if ord.rank = 1 then
      if ord.typeIsInteger then
        if ord.extentAt 0 = (resultRank : Int) then
          orderLoop ord shapeElementBytes resultRank resultRank
            (ord.lowerBoundAt 0) 0 (List.replicate maxRank false)
            (List.replicate resultRank 0)
        else .error "CHECK order extent"
      else .error "CHECK order integer"
    else .error "CHECK order rank"

/-- The length-parameter copying loop: `SetLenParameterValue(j,
source LenParameterValue(j))` for `j` ascending below `n`. -/
def copyLenParamsLoop (srcVals : List Int) (n : Nat) (acc : List Int) : List Int :=
  (List.range n).foldl (fun a j => a.set j (srcVals.getD j 0)) acc

/-- The addendum attached by `Descriptor::Create`: it references the
source derived type (when present) and has zero-initialized length type
parameter slots and cleared flags. -/
def createAddendum (source : Descriptor) : DescriptorAddendum :=
  let dt := source.addendum.bind fun a => a.derivedType
  { derivedType := dt
    lenParameterValues :=
      match dt with
      | some d => List.replicate d.lenParameters 0
      | none => []
    doNotFinalize := false }

/-- Modelled from the spec: `Descriptor::Create` followed by `Allocate` —
a fresh descriptor of the given extents with lower bounds 1, the
requested element byte size, zero-filled contiguous storage, and an
attached addendum referencing the source derived type (when present)
with zero-initialized length parameter slots. -/
def createResult (source : Descriptor) (resultExtent : List Int)
    (elementBytes : Nat) : Descriptor :=
  { typeIsInteger := source.typeIsInteger
    elementBytes := elementBytes
    dims := resultExtent.map fun e => ⟨1, e⟩
    data := List.replicate ((resultExtent.map Int.toNat).prod * elementBytes) 0
    addendum := some (createAddendum source) }

/-- The addendum finishing steps of RESHAPE: set the DoNotFinalize flag
bit, and copy all of the source length type parameter values into the
result addendum when the source carries derived type information. -/
def finishAddendum (source : Descriptor) (a0 : DescriptorAddendum) :
    DescriptorAddendum :=
  match source.addendum, source.addendum.bind fun a => a.derivedType with
  | some srcAdd, some dt =>
    { a0 with
      doNotFinalize := true
      lenParameterValues :=
        copyLenParamsLoop srcAdd.lenParameterValues dt.lenParameters
          a0.lenParameterValues }
  | _, _ => { a0 with doNotFinalize := true }

/-- `RESHAPE` of `transformational.cc` (F2018 16.9.163).  `.error` models
the fatal terminations: every `CHECK`, `CRASH_NO_CASE` inside `GetInt64`,
and the null-pad dereference of the pad loop.  The sufficiency test is
modelled exactly as written in the code: it fires when
`resultElements < sourceElements`. -/
def RESHAPE (source shape : Descriptor) (pad order : Option Descriptor) :
    Except String Descriptor :=
  if shape.rank ≠ 1 then .error "CHECK shape rank" else
  if ¬ shape.typeIsInteger then .error "CHECK shape integer" else
  let resultRankI : Int := shape.extentAt 0
  if ¬ (0 ≤ resultRankI ∧ resultRankI ≤ (maxRank : Int)) then
    .error "CHECK result rank bound" else
  let resultRank : Nat := resultRankI.toNat
  match readShape shape resultRank (shape.lowerBoundAt 0) with
  | .error e => .error e
  | .ok resultExtent =>
    let shapeElementBytes := shape.elementBytes
    let resultElements : Nat := (resultExtent.map Int.toNat).prod
    let elementBytes := source.elementBytes
    let sourceElements := source.elements
    let padCheck : Except String Unit :=
      if resultElements < sourceElements then
        match pad with
        | none => .error "CHECK padElements positive"
        | some p =>
          if p.elements = 0 then .error "CHECK padElements positive"
          else if p.elementBytes ≠ elementBytes then
            .error "CHECK pad element bytes"
          else .ok ()
      else .ok ()
    match padCheck with
    | .error e => .error e
    | .ok _ =>
      match computeDimOrder order shapeElementBytes resultRank with
      | .error e => .error e
      | .ok dimOrder =>
        let result0 := createResult source resultExtent elementBytes
        if result0.addendum.isNone then .error "CHECK resultAddendum nonnull"
        else
          let result1 := { result0 with
            addendum := some (finishAddendum source (createAddendum source)) }
          let elementsFromSource := min resultElements sourceElements
          let step1 := transferLoop source.data source.dims elementBytes
            result1.dims dimOrder elementsFromSource
            (lowerBounds source.dims) (lowerBounds result1.dims) result1.data
          if elementsFromSource < resultElements then
            match pad with
            | none => .error "null pad dereference"
            | some p =>
              let step2 := transferLoop p.data p.dims elementBytes
                result1.dims dimOrder (resultElements - elementsFromSource)
                (lowerBounds p.dims) step1.1 step1.2
              .ok { result1 with data := step2.2 }
          else .ok { result1 with data := step1.2 }

/-! ### Concrete descriptors used as witnesses and counterexamples -/

/-- A rank-1 integer source with 2 one-byte elements. -/
def sourceTwo : Descriptor := ⟨true, 1, [⟨1, 2⟩], [5, 6], none⟩

/-- A rank-1 integer source with 1 one-byte element. -/
def sourceOne : Descriptor := ⟨true, 1, [⟨1, 1⟩], [5], none⟩

/-- A rank-1 integer source with 0 elements. -/
def sourceEmpty : Descriptor := ⟨true, 1, [⟨1, 0⟩], [], none⟩

/-- A rank-1 integer source with 3 one-byte elements. -/
def sourceThree : Descriptor := ⟨true, 1, [⟨1, 3⟩], [7, 8, 9], none⟩

/-- A rank-1 integer source with 4 one-byte elements. -/
def sourceFour : Descriptor := ⟨true, 1, [⟨1, 4⟩], [10, 20, 30, 40], none⟩

/-- A rank-1 integer source with 6 one-byte elements. -/
def sourceSix : Descriptor := ⟨true, 1, [⟨1, 6⟩], [10, 20, 30, 40, 50, 60], none⟩

/-- A derived-type source: addendum with a 2-parameter derived type and
length parameter values 11 and 22. -/
def sourceDerived : Descriptor :=
  ⟨false, 1, [⟨1, 2⟩], [7, 9], some ⟨some ⟨2⟩, [11, 22], false⟩⟩

/-- A one-byte-element shape descriptor whose single extent is 1. -/
def shapeOne : Descriptor := ⟨true, 1, [⟨1, 1⟩], [1], none⟩

/-- A one-byte-element shape descriptor whose single extent is 2. -/
def shapeTwo : Descriptor := ⟨true, 1, [⟨1, 1⟩], [2], none⟩

/-- A one-byte-element shape descriptor with extents 2 and 2. -/
def shapeTwoTwo : Descriptor := ⟨true, 1, [⟨1, 2⟩], [2, 2], none⟩

/-- A one-byte-element shape descriptor whose single extent is 8. -/
def shapeEight : Descriptor := ⟨true, 1, [⟨1, 1⟩], [8], none⟩

/-- An empty shape descriptor: rank 1 with extent 0 and no data. -/
def shapeEmpty : Descriptor := ⟨true, 1, [⟨1, 0⟩], [], none⟩

/-- An 8-byte-element shape descriptor with extents 2 and 3
(little-endian encoded). -/
def shapeWide : Descriptor :=
  ⟨true, 8, [⟨1, 2⟩],
    [2, 0, 0, 0, 0, 0, 0, 0, 3, 0, 0, 0, 0, 0, 0, 0], none⟩

/-- A rank-1 pad with 2 one-byte elements. -/
def padTwo : Descriptor := ⟨true, 1, [⟨1, 2⟩], [77, 88], none⟩

/-- A rank-1 pad with 1 one-byte element. -/
def padOne : Descriptor := ⟨true, 1, [⟨1, 1⟩], [9], none⟩

/-- A one-byte-element order descriptor holding the permutation [2, 1]. -/
def orderSwap : Descriptor := ⟨true, 1, [⟨1, 2⟩], [2, 1], none⟩

/-! ### Byte-level storage lemmas -/

theorem getD_set {α : Type} (l : List α) (j : Nat) (v : α) (i : Nat) (d : α) :
    (l.set j v).getD i d = if j = i ∧ j < l.length then v else l.getD i d := by
  rw [List.getD_eq_getElem?_getD, List.getD_eq_getElem?_getD, List.getElem?_set]
  rcases Decidable.em (j = i) with h | h
  · subst h
    rcases Decidable.em (j < l.length) with h2 | h2
    · simp [h2]
    · simp [h2, List.getElem?_eq_none (Nat.le_of_not_lt h2)]
  · simp [h]

theorem length_writeBytes : ∀ (bs data : List Nat) (off : Nat),
    (writeBytes data off bs).length = data.length
  | [], _, _ => rfl
  | b :: bs, data, off => by
    rw [writeBytes, length_writeBytes bs, List.length_set]

theorem getD_writeBytes : ∀ (bs data : List Nat) (off i : Nat),
    (writeBytes data off bs).getD i 0 =
      if off ≤ i ∧ i < off + bs.length ∧ i < data.length then bs.getD (i - off) 0
      else data.getD i 0
  | [], data, off, i => by
    simp only [writeBytes, List.length_nil, Nat.add_zero]
    rw [if_neg]
    omega
  | b :: bs, data, off, i => by
    rw [writeBytes, getD_writeBytes bs, List.length_set, getD_set]
    rcases Decidable.em (i < data.length) with hlen | hlen
    · rcases Nat.lt_trichotomy i off with hc | hc | hc
      · rw [if_neg (by omega), if_neg (by omega), if_neg (by omega)]
      · subst hc
        rw [if_neg (by omega), if_pos ⟨rfl, hlen⟩, if_pos (by simp; omega)]
        simp
      · rcases Decidable.em (i < off + (b :: bs).length) with hin | hin
        · rw [if_pos (by simp at hin ⊢; omega), if_pos (by simp at hin ⊢; omega)]
          have h1 : i - off = (i - (off + 1)) + 1 := by omega
          rw [h1]
          simp
        · rw [if_neg (by simp at hin ⊢; omega), if_neg (by simp at hin ⊢; omega),
            if_neg (by omega)]
    · rw [if_neg (by omega), if_neg (by omega), if_neg (by omega)]

theorem readBytes_length (data : List Nat) (off n : Nat) :
    (readBytes data off n).length = n := by
  simp [readBytes]

theorem getD_readBytes (data : List Nat) (off n i : Nat) (h : i < n) :
    (readBytes data off n).getD i 0 = data.getD (off + i) 0 := by
  rw [readBytes, List.getD_eq_getElem?_getD, List.getElem?_map,
    List.getElem?_range h]
  rfl

theorem readBytes_ext {d1 d2 : List Nat} {off1 off2 n : Nat}
    (h : ∀ i, i < n → d1.getD (off1 + i) 0 = d2.getD (off2 + i) 0) :
    readBytes d1 off1 n = readBytes d2 off2 n := by
  unfold readBytes
  refine List.map_congr_left ?_
  intro a ha
  exact h a (List.mem_range.mp ha)

theorem readBytes_writeBytes_same (data bs : List Nat) (off : Nat)
    (hbs : off + bs.length ≤ data.length) :
    readBytes (writeBytes data off bs) off bs.length = bs := by
  have hlen : (readBytes (writeBytes data off bs) off bs.length).length = bs.length :=
    readBytes_length ..
  apply List.ext_getElem hlen
  intro i h1 h2
  rw [← List.getD_eq_getElem _ 0 h1, ← List.getD_eq_getElem _ 0 h2]
  rw [getD_readBytes _ _ _ _ (by omega : i < bs.length), getD_writeBytes,
    if_pos (by omega)]
  congr 1
  omega

theorem readBytes_writeBytes_outside (data bs : List Nat) (off off2 n : Nat)
    (h : off2 + n ≤ off ∨ off + bs.length ≤ off2) :
    readBytes (writeBytes data off bs) off2 n = readBytes data off2 n := by
  apply readBytes_ext
  intro i hi
  rw [getD_writeBytes, if_neg (by omega)]

/-! ### Odometer traversal lemmas -/

theorem totalElements_cons (d : Dimension) (ds : List Dimension) :
    totalElements (d :: ds) = d.extent.toNat * totalElements ds := by
  simp [totalElements]

theorem length_subAt : ∀ (dims : List Dimension) (i : Nat),
    (subAt dims i).length = dims.length
  | [], _ => rfl
  | d :: ds, i => by simp [subAt, length_subAt ds]

theorem subAt_zero : ∀ dims : List Dimension, subAt dims 0 = lowerBounds dims
  | [] => rfl
  | d :: ds => by simp [subAt, lowerBounds, subAt_zero ds]

theorem lowerBounds_cons (d : Dimension) (ds : List Dimension) :
    lowerBounds (d :: ds) = d.lowerBound :: lowerBounds ds := rfl

theorem linearIndex_subAt : ∀ (dims : List Dimension) (i : Nat),
    i < totalElements dims → linearIndex dims (subAt dims i) = i
  | [], i, h => by
    simp only [totalElements, List.map_nil, List.prod_nil] at h
    interval_cases i
    rfl
  | d :: ds, i, h => by
    rw [totalElements_cons] at h
    have he0 : 0 < d.extent.toNat := by
      rcases Nat.eq_zero_or_pos d.extent.toNat with h0 | h0
      · rw [h0] at h; omega
      · exact h0
    have hT0 : 0 < totalElements ds := by
      rcases Nat.eq_zero_or_pos (totalElements ds) with h0 | h0
      · rw [h0] at h; omega
      · exact h0
    have hdiv : i / d.extent.toNat < totalElements ds :=
      Nat.div_lt_of_lt_mul h
    have hcast : ((d.extent.toNat : Nat) : Int) = d.extent := by omega
    calc linearIndex (d :: ds) (subAt (d :: ds) i)
        = (d.lowerBound + ((i % d.extent.toNat : Nat) : Int) - d.lowerBound) +
            d.extent * linearIndex ds (subAt ds (i / d.extent.toNat)) := rfl
      _ = ((i % d.extent.toNat : Nat) : Int) +
            ((d.extent.toNat : Nat) : Int) * ((i / d.extent.toNat : Nat) : Int) := by
          rw [linearIndex_subAt ds _ hdiv, hcast]; ring
      _ = ((i % d.extent.toNat + d.extent.toNat * (i / d.extent.toNat) : Nat) : Int) := by
          push_cast; ring
      _ = (i : Int) := by rw [Nat.mod_add_div]

theorem byteOffset_subAt (eb : Nat) (dims : List Dimension) (i : Nat)
    (h : i < totalElements dims) :
    (byteOffset eb dims (subAt dims i)).toNat = eb * i := by
  rw [byteOffset, linearIndex_subAt dims i h, ← Nat.cast_mul]
  exact Int.toNat_natCast _

theorem incrementSubscripts_subAt : ∀ (dims : List Dimension) (i : Nat),
    i + 1 < totalElements dims →
    incrementSubscripts dims (subAt dims i) = subAt dims (i + 1)
  | [], i, h => by simp [totalElements] at h
  | d :: ds, i, h => by
    rw [totalElements_cons] at h
    have he0 : 0 < d.extent.toNat := by
      rcases Nat.eq_zero_or_pos d.extent.toNat with h0 | h0
      · rw [h0] at h; omega
      · exact h0
    have hcast : ((d.extent.toNat : Nat) : Int) = d.extent := by omega
    have h0 : i % d.extent.toNat + i / d.extent.toNat * d.extent.toNat = i :=
      Nat.mod_add_div' i d.extent.toNat
    have hmlt : i % d.extent.toNat < d.extent.toNat := Nat.mod_lt i he0
    rw [subAt, incrementSubscripts]
    rcases Decidable.em (i % d.extent.toNat + 1 < d.extent.toNat) with hc | hc
    · rw [if_pos (by omega)]
      have harr : i + 1 = (i % d.extent.toNat + 1) + (i / d.extent.toNat) * d.extent.toNat := by
        omega
      have hmod : (i + 1) % d.extent.toNat = i % d.extent.toNat + 1 := by
        rw [harr, Nat.add_mul_mod_self_right, Nat.mod_eq_of_lt hc]
      have hdiv : (i + 1) / d.extent.toNat = i / d.extent.toNat := by
        rw [harr, Nat.add_mul_div_right _ _ he0, Nat.div_eq_of_lt hc, Nat.zero_add]
      rw [subAt, hmod, hdiv]
      congr 1
      push_cast
      ring
    · have hme : i % d.extent.toNat + 1 = d.extent.toNat := by omega
      rw [if_neg (by omega)]
      have harr : i + 1 = (i / d.extent.toNat + 1) * d.extent.toNat := by
        have h2 : (i / d.extent.toNat + 1) * d.extent.toNat =
            i / d.extent.toNat * d.extent.toNat + d.extent.toNat := by ring
        omega
      have hmod : (i + 1) % d.extent.toNat = 0 := by
        rw [harr, Nat.mul_mod_left]
      have hdiv : (i + 1) / d.extent.toNat = i / d.extent.toNat + 1 := by
        rw [harr, Nat.mul_div_cancel _ he0]
      have htail : i / d.extent.toNat + 1 < totalElements ds := by
        have h3 : (i / d.extent.toNat + 1) * d.extent.toNat <
            totalElements ds * d.extent.toNat := by
          rw [← harr, Nat.mul_comm]; exact h
        exact Nat.lt_of_mul_lt_mul_right h3
      rw [subAt, hmod, hdiv, incrementSubscripts_subAt ds (i / d.extent.toNat) htail]
      congr 1
      simp

theorem incrementSubscripts_subAt_last : ∀ dims : List Dimension,
    0 < totalElements dims →
    incrementSubscripts dims (subAt dims (totalElements dims - 1)) = lowerBounds dims
  | [], _ => rfl
  | d :: ds, h => by
    rw [totalElements_cons] at h ⊢
    have he0 : 0 < d.extent.toNat := by
      rcases Nat.eq_zero_or_pos d.extent.toNat with h0 | h0
      · rw [h0] at h; omega
      · exact h0
    have hT0 : 0 < totalElements ds := by
      rcases Nat.eq_zero_or_pos (totalElements ds) with h0 | h0
      · rw [h0] at h; omega
      · exact h0
    obtain ⟨e1, hee⟩ : ∃ e1, d.extent.toNat = e1 + 1 := ⟨d.extent.toNat - 1, by omega⟩
    obtain ⟨T1, hTT⟩ : ∃ T1, totalElements ds = T1 + 1 := ⟨totalElements ds - 1, by omega⟩
    have hprod : (e1 + 1) * (T1 + 1) = e1 * T1 + e1 + T1 + 1 := by ring
    have hT1e : T1 * (e1 + 1) = T1 * e1 + T1 := by ring
    have hcm : e1 * T1 = T1 * e1 := Nat.mul_comm e1 T1
    have harr : d.extent.toNat * totalElements ds - 1 = e1 + T1 * (e1 + 1) := by
      rw [hee, hTT]; omega
    have hmod : (d.extent.toNat * totalElements ds - 1) % d.extent.toNat = e1 := by
      rw [harr, hee, Nat.add_mul_mod_self_right, Nat.mod_eq_of_lt (by omega)]
    have hdiv : (d.extent.toNat * totalElements ds - 1) / d.extent.toNat = T1 := by
      rw [harr, hee, Nat.add_mul_div_right _ _ (by omega : 0 < e1 + 1),
        Nat.div_eq_of_lt (by omega), Nat.zero_add]
    rw [subAt, incrementSubscripts, hmod, hdiv]
    have hcast : ((d.extent.toNat : Nat) : Int) = d.extent := by omega
    rw [if_neg (by omega)]
    have hT1 : T1 = totalElements ds - 1 := by omega
    rw [lowerBounds_cons, hT1, incrementSubscripts_subAt_last ds hT0]

theorem incrementSubscripts_subAt_mod (dims : List Dimension) (i : Nat)
    (h : i < totalElements dims) :
    incrementSubscripts dims (subAt dims i) =
      subAt dims ((i + 1) % totalElements dims) := by
  rcases Decidable.em (i + 1 < totalElements dims) with hc | hc
  · rw [incrementSubscripts_subAt dims i hc, Nat.mod_eq_of_lt hc]
  · have hi1 : i + 1 = totalElements dims := by omega
    have hi : i = totalElements dims - 1 := by omega
    have h2 : (i + 1) % totalElements dims = 0 := by rw [hi1, Nat.mod_self]
    rw [h2, subAt_zero, hi, incrementSubscripts_subAt_last dims (by omega)]

/-! ### The permuted increment with the identity permutation is the
natural-order increment -/

theorem incrementSubscriptsOrdered_shift (d : Dimension) :
    ∀ (ks : List Nat) (ds : List Dimension) (x : Int) (subs : List Int),
      incrementSubscriptsOrdered (d :: ds) (ks.map Nat.succ) (x :: subs) =
        x :: incrementSubscriptsOrdered ds ks subs
  | [], _, _, _ => rfl
  | k :: ks, ds, x, subs => by
    rw [List.map_cons, incrementSubscriptsOrdered, incrementSubscriptsOrdered]
    simp only [List.getElem?_cons_succ]
    cases hd : ds[k]? with
    | none => rfl
    | some dk =>
      cases hs : subs[k]? with
      | none => rfl
      | some s =>
        simp only []
        split
        · rfl
        · rw [show (x :: subs).set (k + 1) dk.lowerBound =
              x :: subs.set k dk.lowerBound from rfl]
          exact incrementSubscriptsOrdered_shift d ks ds x (subs.set k dk.lowerBound)

theorem incrementSubscriptsOrdered_range : ∀ (dims : List Dimension) (subs : List Int),
    subs.length = dims.length →
    incrementSubscriptsOrdered dims (List.range dims.length) subs =
      incrementSubscripts dims subs
  | [], [], _ => rfl
  | [], _ :: _, h => by simp at h
  | _ :: _, [], h => by simp at h
  | d :: ds, x :: ss, h => by
    rw [List.length_cons, List.range_succ_eq_map, incrementSubscriptsOrdered,
      incrementSubscripts]
    simp only [List.getElem?_cons_zero]
    split
    · rfl
    · rw [show (x :: ss).set 0 d.lowerBound = d.lowerBound :: ss from rfl,
        incrementSubscriptsOrdered_shift,
        incrementSubscriptsOrdered_range ds ss (by simpa using h)]

/-! ### Transfer-engine lemmas: the copy loop realizes, block by block, the
natural-order linear traversal of the `from` array (cyclically) into the
identity-order linear traversal of the result -/

theorem transferLoop_fst (fd : List Nat) (fdims rdims : List Dimension) (eb : Nat)
    (hT : 0 < totalElements fdims) :
    ∀ (n c b : Nat) (resData : List Nat),
      c < totalElements fdims →
      b + n < totalElements rdims →
      (transferLoop fd fdims eb rdims (List.range rdims.length) n
          (subAt fdims c) (subAt rdims b) resData).1 = subAt rdims (b + n)
  | 0, c, b, resData, _, _ => by simp [transferLoop]
  | n + 1, c, b, resData, hc, hb => by
    rw [transferLoop, incrementSubscripts_subAt_mod fdims c hc,
      incrementSubscriptsOrdered_range rdims _ (length_subAt rdims b),
      incrementSubscripts_subAt rdims b (by omega)]
    have hbn : b + (n + 1) = (b + 1) + n := by omega
    rw [hbn]
    exact transferLoop_fst fd fdims rdims eb hT n ((c + 1) % totalElements fdims)
      (b + 1) _ (Nat.mod_lt _ hT) (by omega)

theorem transferLoop_data (fd : List Nat) (fdims rdims : List Dimension) (eb : Nat)
    (hT : 0 < totalElements fdims) :
    ∀ (n c b : Nat) (resSub : List Int) (resData : List Nat),
      c < totalElements fdims →
      b + n ≤ totalElements rdims →
      eb * (b + n) ≤ resData.length →
      (0 < n → resSub = subAt rdims b) →
      (transferLoop fd fdims eb rdims (List.range rdims.length) n
          (subAt fdims c) resSub resData).2.length = resData.length ∧
      (∀ i, i < eb * b ∨ eb * (b + n) ≤ i →
        (transferLoop fd fdims eb rdims (List.range rdims.length) n
          (subAt fdims c) resSub resData).2.getD i 0 = resData.getD i 0) ∧
      (∀ t, t < n →
        readBytes (transferLoop fd fdims eb rdims (List.range rdims.length) n
          (subAt fdims c) resSub resData).2 (eb * (b + t)) eb =
        readBytes fd (eb * ((c + t) % totalElements fdims)) eb)
  | 0, c, b, resSub, resData, _, _, _, _ =>
    ⟨rfl, fun _ _ => rfl, fun t ht => absurd ht (by omega)⟩
  | n + 1, c, b, resSub, resData, hc, hbn, hlen, hres => by
    obtain rfl : resSub = subAt rdims b := hres (by omega)
    have hb : b < totalElements rdims := by omega
    have hoff0 : (byteOffset eb rdims (subAt rdims b)).toNat = eb * b :=
      byteOffset_subAt eb rdims b hb
    have hofff : (byteOffset eb fdims (subAt fdims c)).toNat = eb * c :=
      byteOffset_subAt eb fdims c hc
    have hc1 : (c + 1) % totalElements fdims < totalElements fdims := Nat.mod_lt _ hT
    have hstep : transferLoop fd fdims eb rdims (List.range rdims.length) (n + 1)
        (subAt fdims c) (subAt rdims b) resData =
        transferLoop fd fdims eb rdims (List.range rdims.length) n
          (subAt fdims ((c + 1) % totalElements fdims))
          (incrementSubscriptsOrdered rdims (List.range rdims.length) (subAt rdims b))
          (writeBytes resData (eb * b) (readBytes fd (eb * c) eb)) := by
      rw [transferLoop, incrementSubscripts_subAt_mod fdims c hc, hoff0, hofff]
    have hlen2 : (writeBytes resData (eb * b) (readBytes fd (eb * c) eb)).length =
        resData.length := length_writeBytes ..
    have hrb : (readBytes fd (eb * c) eb).length = eb := readBytes_length ..
    have hmul1 : eb * (b + 1) = eb * b + eb := by ring
    have hmul2 : eb * (b + 1) ≤ eb * (b + 1 + n) :=
      Nat.mul_le_mul_left eb (by omega)
    have hmul3 : eb * (b + 1 + n) = eb * (b + (n + 1)) := by ring
    have hres2 : 0 < n →
        incrementSubscriptsOrdered rdims (List.range rdims.length) (subAt rdims b) =
          subAt rdims (b + 1) := by
      intro hn
      rw [incrementSubscriptsOrdered_range rdims _ (length_subAt rdims b),
        incrementSubscripts_subAt rdims b (by omega)]
    obtain ⟨ihlen, ihmiss, ihhit⟩ := transferLoop_data fd fdims rdims eb hT n
      ((c + 1) % totalElements fdims) (b + 1)
      (incrementSubscriptsOrdered rdims (List.range rdims.length) (subAt rdims b))
      (writeBytes resData (eb * b) (readBytes fd (eb * c) eb))
      hc1 (by omega) (by rw [hlen2, hmul3]; exact hlen) hres2
    rw [hstep]
    refine ⟨by rw [ihlen, hlen2], ?_, ?_⟩
    · intro i hi
      have hi2 : i < eb * (b + 1) ∨ eb * (b + 1 + n) ≤ i := by
        rcases hi with hi | hi
        · left; omega
        · right; omega
      have hneg : ¬(eb * b ≤ i ∧ i < eb * b + (readBytes fd (eb * c) eb).length ∧
          i < resData.length) := by
        rw [hrb]; omega
      rw [ihmiss i hi2, getD_writeBytes, if_neg hneg]
    · intro t ht
      cases t with
      | zero =>
        simp only [Nat.add_zero]
        rw [Nat.mod_eq_of_lt hc]
        have hfirst : readBytes (transferLoop fd fdims eb rdims
            (List.range rdims.length) n
            (subAt fdims ((c + 1) % totalElements fdims))
            (incrementSubscriptsOrdered rdims (List.range rdims.length)
              (subAt rdims b))
            (writeBytes resData (eb * b) (readBytes fd (eb * c) eb))).2
            (eb * b) eb =
            readBytes (writeBytes resData (eb * b) (readBytes fd (eb * c) eb))
              (eb * b) eb := by
          apply readBytes_ext
          intro i hi
          exact ihmiss (eb * b + i) (Or.inl (by omega))
        rw [hfirst]
        have hsame := readBytes_writeBytes_same resData (readBytes fd (eb * c) eb)
          (eb * b) (by rw [hrb]; omega)
        rw [hrb] at hsame
        exact hsame
      | succ t2 =>
        have hih := ihhit t2 (by omega)
        have harg1 : b + 1 + t2 = b + (t2 + 1) := by omega
        have harg2 : ((c + 1) % totalElements fdims + t2) % totalElements fdims =
            (c + (t2 + 1)) % totalElements fdims := by
          rw [Nat.mod_add_mod]
          congr 1
          omega
        rw [harg1, harg2] at hih
        exact hih

/-! ### Validator lemmas -/

theorem readShape_ok_length : ∀ (shape : Descriptor) (n : Nat) (s : Int)
    (l : List Int), readShape shape n s = .ok l → l.length = n
  | _, 0, _, l, h => by
    rw [readShape] at h
    cases h
    rfl
  | shape, n + 1, s, l, h => by
    rw [readShape] at h
    split at h
    · exact Except.noConfusion h
    · split at h
      · split at h
        · rename_i rest heq
          cases h
          rw [List.length_cons, readShape_ok_length shape n (s + 1) _ heq]
        · exact Except.noConfusion h
      · exact Except.noConfusion h

theorem orderLoop_ok_spec (ord : Descriptor) (deb rank : Nat) :
    ∀ (n j : Nat) (seen : List Bool) (dimOrder : List Nat) (d : List Nat),
      seen.length = maxRank → dimOrder.length = rank → rank ≤ maxRank →
      orderLoop ord deb rank n (ord.lowerBoundAt 0 + (j : Int)) j seen dimOrder =
        .ok d →
      d.length = rank ∧
      (∀ p, p < rank → seen.getD p false = true →
        d.getD p 0 = dimOrder.getD p 0) ∧
      (∀ t, t < n → ∃ k : Int,
        orderValue ord deb (ord.lowerBoundAt 0 + ((j + t : Nat) : Int)) = some k ∧
        1 ≤ k ∧ k ≤ (rank : Int) ∧ seen.getD (k - 1).toNat false = false ∧
        d.getD (k - 1).toNat 0 = j + t)
  | 0, j, seen, dimOrder, d, _, hdo, _, h => by
    rw [orderLoop] at h
    cases h
    exact ⟨hdo, fun _ _ _ => rfl, fun t ht => absurd ht (by omega)⟩
  | n + 1, j, seen, dimOrder, d, hseen, hdo, hrk, h => by
    rw [orderLoop] at h
    split at h
    · exact Except.noConfusion h
    · rename_i k hk
      split at h
      · rename_i hcond
        obtain ⟨hk1, hk2, hk3⟩ := hcond
        have hp : (k - 1).toNat < rank := by omega
        have hcast : (ord.lowerBoundAt 0 + ((j : Nat) : Int)) + 1 =
            ord.lowerBoundAt 0 + ((j + 1 : Nat) : Int) := by push_cast; ring
        rw [hcast] at h
        obtain ⟨ihlen, ihseen, ihval⟩ := orderLoop_ok_spec ord deb rank n (j + 1)
          (seen.set (k - 1).toNat true) (dimOrder.set (k - 1).toNat j) d
          (by rw [List.length_set]; exact hseen)
          (by rw [List.length_set]; exact hdo) hrk h
        refine ⟨ihlen, ?_, ?_⟩
        · intro p hpr hps
          have hpne : (k - 1).toNat ≠ p := by
            intro he
            rw [he, hps] at hk3
            exact Bool.noConfusion hk3
          have h1 := ihseen p hpr (by rw [getD_set, if_neg (by tauto)]; exact hps)
          rw [h1, getD_set, if_neg (by tauto)]
        · intro t ht
          cases t with
          | zero =>
            refine ⟨k, by simpa using hk, hk1, hk2, hk3, ?_⟩
            have h1 := ihseen (k - 1).toNat hp
              (by rw [getD_set, if_pos ⟨rfl, by omega⟩])
            rw [h1, getD_set, if_pos ⟨rfl, by omega⟩]
            omega
          | succ t2 =>
            obtain ⟨k2, hv, h1, h2, h3, h4⟩ := ihval t2 (by omega)
            have harg : j + 1 + t2 = j + (t2 + 1) := by omega
            rw [harg] at hv h4
            refine ⟨k2, hv, h1, h2, ?_, h4⟩
            rw [getD_set] at h3
            by_cases he : (k - 1).toNat = (k2 - 1).toNat
            · rw [if_pos ⟨he, by omega⟩] at h3
              exact Bool.noConfusion h3
            · rw [if_neg (by tauto)] at h3
              exact h3
      · exact Except.noConfusion h

theorem copyLenParamsLoop_core : ∀ (src : List Int) (l : List Nat)
    (acc : List Int),
    (l.foldl (fun a j => a.set j (src.getD j 0)) acc).length = acc.length
  | _, [], _ => rfl
  | src, j :: l, acc => by
    rw [List.foldl_cons, copyLenParamsLoop_core src l, List.length_set]

theorem copyLenParamsLoop_length (src : List Int) (n : Nat) (acc : List Int) :
    (copyLenParamsLoop src n acc).length = acc.length :=
  copyLenParamsLoop_core src (List.range n) acc

theorem copyLenParamsLoop_succ (src : List Int) (n : Nat) (acc : List Int) :
    copyLenParamsLoop src (n + 1) acc =
      (copyLenParamsLoop src n acc).set n (src.getD n 0) := by
  rw [copyLenParamsLoop, copyLenParamsLoop, List.range_succ, List.foldl_append,
    List.foldl_cons, List.foldl_nil]

theorem copyLenParamsLoop_getD (src : List Int) :
    ∀ (n : Nat) (acc : List Int) (p : Nat),
    (copyLenParamsLoop src n acc).getD p 0 =
      if p < n ∧ p < acc.length then src.getD p 0 else acc.getD p 0
  | 0, acc, p => by
    rw [copyLenParamsLoop, List.range_zero, List.foldl_nil, if_neg (by omega)]
  | n + 1, acc, p => by
    rw [copyLenParamsLoop_succ, getD_set, copyLenParamsLoop_length,
      copyLenParamsLoop_getD src n acc p]
    rcases Decidable.em (n = p) with he | he
    · subst he
      rcases Decidable.em (n < acc.length) with h2 | h2
      · rw [if_pos ⟨rfl, h2⟩, if_pos (by omega)]
      · rw [if_neg (by tauto), if_neg (by omega), if_neg (by omega)]
    · rcases Decidable.em (p < n ∧ p < acc.length) with h2 | h2
      · rw [if_neg (by tauto), if_pos h2, if_pos (by omega)]
      · rw [if_neg (by tauto), if_neg h2, if_neg (by omega)]

theorem copyLenParamsLoop_eq_src (src : List Int) (n : Nat)
    (hlen : src.length = n) :
    copyLenParamsLoop src n (List.replicate n 0) = src := by
  apply List.ext_getElem
  · rw [copyLenParamsLoop_length, List.length_replicate, hlen]
  · intro i h1 h2
    rw [← List.getD_eq_getElem _ 0 h1, ← List.getD_eq_getElem _ 0 h2,
      copyLenParamsLoop_getD, if_pos ⟨by omega, by rw [List.length_replicate]; omega⟩]

/-! ### Integer decoder lemmas -/

theorem decodeUnsigned_lt : ∀ bs : List Nat, (∀ b ∈ bs, b < 256) →
    decodeUnsigned bs < 2 ^ (8 * bs.length)
  | [], _ => by simp [decodeUnsigned]
  | b :: bs, h => by
    rw [decodeUnsigned, List.length_cons]
    have hb : b < 256 := h b (List.mem_cons_self ..)
    have ih := decodeUnsigned_lt bs fun x hx => h x (List.mem_cons_of_mem _ hx)
    have h2 : 2 ^ (8 * (bs.length + 1)) = 2 ^ (8 * bs.length) * 256 := by
      rw [Nat.mul_add, Nat.pow_add]
    have h3 : (decodeUnsigned bs + 1) * 256 ≤ 2 ^ (8 * bs.length) * 256 :=
      Nat.mul_le_mul_right 256 (by omega)
    omega

theorem readBytes_bytes_lt (data : List Nat) (h : ∀ b ∈ data, b < 256)
    (off n : Nat) : ∀ b ∈ readBytes data off n, b < 256 := by
  intro b hb
  rw [readBytes] at hb
  simp only [List.mem_map, List.mem_range] at hb
  obtain ⟨i, _, rfl⟩ := hb
  rw [List.getD_eq_getElem?_getD]
  cases hx : data[off + i]? with
  | none => norm_num
  | some x => exact h x (List.getElem?_mem hx)

theorem toSigned_spec (w : Nat) (hw : 1 ≤ w) (v : Nat) (hv : v < 2 ^ (8 * w)) :
    -(2 ^ (8 * w - 1) : Int) ≤ toSigned w v ∧ toSigned w v < 2 ^ (8 * w - 1) ∧
    toSigned w v % 2 ^ (8 * w) = (v : Int) := by
  have hpos : (0 : Int) < 2 ^ (8 * w - 1) := by positivity
  have hsplit : (2 : Int) ^ (8 * w) = 2 ^ (8 * w - 1) * 2 := by
    rw [← pow_succ]
    congr 1
    omega
  have hvc : (v : Int) < 2 ^ (8 * w) := by exact_mod_cast hv
  rw [toSigned]
  split
  · rename_i hlt
    have hltc : (v : Int) < 2 ^ (8 * w - 1) := by exact_mod_cast hlt
    refine ⟨by omega, hltc, ?_⟩
    exact Int.emod_eq_of_lt (by omega) hvc
  · rename_i hge
    have hgec : (2 : Int) ^ (8 * w - 1) ≤ (v : Int) := by
      have := Nat.le_of_not_lt hge
      exact_mod_cast this
    refine ⟨by omega, by omega, ?_⟩
    rw [Int.emod_sub_cancel]
    exact Int.emod_eq_of_lt (by omega) hvc

theorem GetInt64_valid (data : List Nat) (off bytes : Nat)
    (h256 : ∀ b ∈ data, b < 256)
    (hb : bytes = 1 ∨ bytes = 2 ∨ bytes = 4 ∨ bytes = 8) :
    ∃ v : Int, GetInt64 data off bytes = some v ∧
      -(2 ^ (8 * bytes - 1) : Int) ≤ v ∧ v < 2 ^ (8 * bytes - 1) ∧
      v % 2 ^ (8 * bytes) = (decodeUnsigned (readBytes data off bytes) : Int) := by
  have hv : decodeUnsigned (readBytes data off bytes) < 2 ^ (8 * bytes) := by
    have := decodeUnsigned_lt (readBytes data off bytes)
      (readBytes_bytes_lt data h256 off bytes)
    rwa [readBytes_length] at this
  have hw : 1 ≤ bytes := by omega
  obtain ⟨h1, h2, h3⟩ := toSigned_spec bytes hw _ hv
  exact ⟨toSigned bytes (decodeUnsigned (readBytes data off bytes)),
    by rw [GetInt64, if_pos hb], h1, h2, h3⟩

/-! ### Top-level RESHAPE lemmas -/

theorem createResult_addendum (source : Descriptor) (re : List Int) (eb : Nat) :
    (createResult source re eb).addendum = some (createAddendum source) := rfl

theorem finishAddendum_flag (source : Descriptor) (a0 : DescriptorAddendum) :
    (finishAddendum source a0).doNotFinalize = true := by
  rw [finishAddendum]
  split <;> rfl

theorem RESHAPE_ok_addendum (source shape : Descriptor)
    (pad order : Option Descriptor) (r : Descriptor)
    (h : RESHAPE source shape pad order = .ok r) :
    r.addendum = some (finishAddendum source (createAddendum source)) := by
  simp only [RESHAPE] at h
  repeat' split at h
  all_goals first
    | exact Except.noConfusion h
    | (cases h; rfl)

theorem createResult_dims (source : Descriptor) (re : List Int) (eb : Nat) :
    (createResult source re eb).dims = re.map fun e => ⟨1, e⟩ := rfl

theorem createResult_data (source : Descriptor) (re : List Int) (eb : Nat) :
    (createResult source re eb).data =
      List.replicate ((re.map Int.toNat).prod * eb) 0 := rfl

theorem createResult_elementBytes (source : Descriptor) (re : List Int)
    (eb : Nat) : (createResult source re eb).elementBytes = eb := rfl

theorem createResult_typeIsInteger (source : Descriptor) (re : List Int)
    (eb : Nat) : (createResult source re eb).typeIsInteger =
      source.typeIsInteger := rfl

theorem totalElements_resultDims (exts : List Int) :
    totalElements (exts.map fun e => (⟨1, e⟩ : Dimension)) =
      (exts.map Int.toNat).prod := by
  rw [totalElements, List.map_map]
  rfl

theorem RESHAPE_eval_nopad (source shape : Descriptor) (exts : List Int)
    (h1 : shape.rank = 1) (h2 : shape.typeIsInteger = true)
    (h3 : 0 ≤ shape.extentAt 0) (h4 : shape.extentAt 0 ≤ (maxRank : Int))
    (h5 : readShape shape (shape.extentAt 0).toNat (shape.lowerBoundAt 0) =
      .ok exts)
    (heq : (exts.map Int.toNat).prod = source.elements) :
    RESHAPE source shape none none = .ok
      { typeIsInteger := source.typeIsInteger
        elementBytes := source.elementBytes
        dims := exts.map fun e => ⟨1, e⟩
        data := (transferLoop source.data source.dims source.elementBytes
          (exts.map fun e => ⟨1, e⟩) (List.range (shape.extentAt 0).toNat)
          source.elements (lowerBounds source.dims)
          (lowerBounds (exts.map fun e => (⟨1, e⟩ : Dimension)))
          (List.replicate (source.elements * source.elementBytes) 0)).2
        addendum := some (finishAddendum source (createAddendum source)) } := by
  simp only [RESHAPE, h1, h2, h3, h4, h5, heq, computeDimOrder,
    createResult_addendum, createResult_dims, createResult_data,
    createResult_elementBytes, createResult_typeIsInteger,
    Option.isNone_some, min_self, lt_irrefl, not_true, not_false_iff,
    if_false, if_true, and_self, ne_eq, Bool.false_eq_true]

theorem RESHAPE_eval_pad (source shape p : Descriptor) (exts : List Int)
    (h1 : shape.rank = 1) (h2 : shape.typeIsInteger = true)
    (h3 : 0 ≤ shape.extentAt 0) (h4 : shape.extentAt 0 ≤ (maxRank : Int))
    (h5 : readShape shape (shape.extentAt 0).toNat (shape.lowerBoundAt 0) =
      .ok exts)
    (hlt : source.elements < (exts.map Int.toNat).prod) :
    RESHAPE source shape (some p) none = .ok
      { typeIsInteger := source.typeIsInteger
        elementBytes := source.elementBytes
        dims := exts.map fun e => ⟨1, e⟩
        data := (transferLoop p.data p.dims source.elementBytes
          (exts.map fun e => ⟨1, e⟩) (List.range (shape.extentAt 0).toNat)
          ((exts.map Int.toNat).prod - source.elements)
          (lowerBounds p.dims)
          (transferLoop source.data source.dims source.elementBytes
            (exts.map fun e => ⟨1, e⟩) (List.range (shape.extentAt 0).toNat)
            source.elements (lowerBounds source.dims)
            (lowerBounds (exts.map fun e => (⟨1, e⟩ : Dimension)))
            (List.replicate ((exts.map Int.toNat).prod * source.elementBytes)
              0)).1
          (transferLoop source.data source.dims source.elementBytes
            (exts.map fun e => ⟨1, e⟩) (List.range (shape.extentAt 0).toNat)
            source.elements (lowerBounds source.dims)
            (lowerBounds (exts.map fun e => (⟨1, e⟩ : Dimension)))
            (List.replicate ((exts.map Int.toNat).prod * source.elementBytes)
              0)).2).2
        addendum := some (finishAddendum source (createAddendum source)) } := by
  have hnlt : ¬((exts.map Int.toNat).prod < source.elements) := by omega
  have hmin : min ((exts.map Int.toNat).prod) source.elements =
      source.elements := Nat.min_eq_right (Nat.le_of_lt hlt)
  simp only [RESHAPE, h1, h2, h3, h4, h5, hnlt, hmin, hlt, computeDimOrder,
    createResult_addendum, createResult_dims, createResult_data,
    createResult_elementBytes, createResult_typeIsInteger,
    Option.isNone_some, lt_irrefl, not_true, not_false_iff,
    if_false, if_true, and_self, ne_eq, Bool.false_eq_true]

theorem elements_def (d : Descriptor) : d.elements = totalElements d.dims := rfl

/-! ### Claim theorems -/

/-- C5: for every source with N elements and every shape whose extents
multiply to exactly N, calling reshape with no pad and no order yields a
result whose elements equal the source elements visited in identical
linear order, with no pad access. -/
theorem c5_reshape_identity (source shape : Descriptor) (exts : List Int)
    (h1 : shape.rank = 1) (h2 : shape.typeIsInteger = true)
    (h3 : 0 ≤ shape.extentAt 0) (h4 : shape.extentAt 0 ≤ (maxRank : Int))
    (h5 : readShape shape (shape.extentAt 0).toNat (shape.lowerBoundAt 0) =
      .ok exts)
    (heq : (exts.map Int.toNat).prod = source.elements) :
    ∃ r, RESHAPE source shape none none = .ok r ∧
      ∀ t, t < source.elements →
        readBytes r.data (source.elementBytes * t) source.elementBytes =
        readBytes source.data (source.elementBytes * t) source.elementBytes := by
  refine ⟨_, RESHAPE_eval_nopad source shape exts h1 h2 h3 h4 h5 heq, ?_⟩
  intro t ht
  have hN : 0 < source.elements := by omega
  have hrank : exts.length = (shape.extentAt 0).toNat :=
    readShape_ok_length shape _ _ _ h5
  have hrlen : (exts.map fun e => (⟨1, e⟩ : Dimension)).length =
      (shape.extentAt 0).toNat := by
    rw [List.length_map, hrank]
  have htot : totalElements (exts.map fun e => (⟨1, e⟩ : Dimension)) =
      source.elements := by
    rw [totalElements_resultDims, heq]
  have hT : 0 < totalElements source.dims := by rw [← elements_def]; exact hN
  obtain ⟨hlen, hmiss, hhit⟩ := transferLoop_data source.data source.dims
    (exts.map fun e => (⟨1, e⟩ : Dimension)) source.elementBytes hT
    source.elements 0 0
    (lowerBounds (exts.map fun e => (⟨1, e⟩ : Dimension)))
    (List.replicate (source.elements * source.elementBytes) 0)
    hT (by rw [htot]; omega)
    (by rw [List.length_replicate, Nat.zero_add, Nat.mul_comm])
    (fun _ => (subAt_zero _).symm)
  rw [subAt_zero, hrlen] at hhit
  have := hhit t (by omega)
  rw [Nat.zero_add, Nat.mod_eq_of_lt (by rw [← elements_def]; exact ht)] at this
  exact this

/-- C4: growing a reshape through a non-empty pad of matching element
byte size fills the first N result elements from the source in natural
order and the remaining M - N from the pad consumed cyclically, wrapping
back to the pad start whenever the pad is exhausted. -/
theorem c4_reshape_grow_pad (source shape p : Descriptor) (exts : List Int)
    (h1 : shape.rank = 1) (h2 : shape.typeIsInteger = true)
    (h3 : 0 ≤ shape.extentAt 0) (h4 : shape.extentAt 0 ≤ (maxRank : Int))
    (h5 : readShape shape (shape.extentAt 0).toNat (shape.lowerBoundAt 0) =
      .ok exts)
    (hlt : source.elements < (exts.map Int.toNat).prod)
    (hp0 : 0 < p.elements) (_hpe : p.elementBytes = source.elementBytes) :
    ∃ r, RESHAPE source shape (some p) none = .ok r ∧
      (∀ t, t < source.elements →
        readBytes r.data (source.elementBytes * t) source.elementBytes =
        readBytes source.data (source.elementBytes * t) source.elementBytes) ∧
      (∀ t, t < (exts.map Int.toNat).prod - source.elements →
        readBytes r.data
          (source.elementBytes * (source.elements + t)) source.elementBytes =
        readBytes p.data
          (source.elementBytes * (t % p.elements)) source.elementBytes) := by
  refine ⟨_, RESHAPE_eval_pad source shape p exts h1 h2 h3 h4 h5 hlt, ?_, ?_⟩
  all_goals
    have hrank : exts.length = (shape.extentAt 0).toNat :=
      readShape_ok_length shape _ _ _ h5
    have hrlen : (exts.map fun e => (⟨1, e⟩ : Dimension)).length =
        (shape.extentAt 0).toNat := by
      rw [List.length_map, hrank]
    have htot : totalElements (exts.map fun e => (⟨1, e⟩ : Dimension)) =
        (exts.map Int.toNat).prod := totalElements_resultDims exts
    have hP : 0 < totalElements p.dims := by rw [← elements_def]; exact hp0
    have hstart : (0 : Nat) < (exts.map Int.toNat).prod - source.elements := by
      omega
    have hsub1 : (transferLoop source.data source.dims source.elementBytes
        (exts.map fun e => (⟨1, e⟩ : Dimension))
        (List.range (shape.extentAt 0).toNat) source.elements
        (lowerBounds source.dims)
        (lowerBounds (exts.map fun e => (⟨1, e⟩ : Dimension)))
        (List.replicate
          ((exts.map Int.toNat).prod * source.elementBytes) 0)).1 =
        subAt (exts.map fun e => (⟨1, e⟩ : Dimension)) source.elements := by
      rcases Nat.eq_zero_or_pos source.elements with hz | hpos
      · rw [hz, transferLoop, subAt_zero]
      · have hT : 0 < totalElements source.dims := by
          rw [← elements_def]; exact hpos
        rw [← subAt_zero source.dims, ← subAt_zero
          (exts.map fun e => (⟨1, e⟩ : Dimension)), ← hrlen]
        have := transferLoop_fst source.data source.dims
          (exts.map fun e => (⟨1, e⟩ : Dimension)) source.elementBytes hT
          source.elements 0 0
          (List.replicate ((exts.map Int.toNat).prod * source.elementBytes) 0)
          hT (by rw [htot]; omega)
        rw [Nat.zero_add] at this
        exact this
  · -- the source-sourced blocks survive the pad phase untouched
    intro t ht
    have hT : 0 < totalElements source.dims := by rw [← elements_def]; omega
    obtain ⟨hlen1, hmiss1, hhit1⟩ := transferLoop_data source.data source.dims
      (exts.map fun e => (⟨1, e⟩ : Dimension)) source.elementBytes hT
      source.elements 0 0
      (lowerBounds (exts.map fun e => (⟨1, e⟩ : Dimension)))
      (List.replicate ((exts.map Int.toNat).prod * source.elementBytes) 0)
      hT (by rw [htot]; omega)
      (by rw [List.length_replicate, Nat.zero_add]
          rw [Nat.mul_comm]
          exact Nat.mul_le_mul_right _ (by omega))
      (fun _ => (subAt_zero _).symm)
    rw [subAt_zero, hrlen] at hhit1 hmiss1 hlen1
    obtain ⟨hlen2, hmiss2, hhit2⟩ := transferLoop_data p.data p.dims
      (exts.map fun e => (⟨1, e⟩ : Dimension)) source.elementBytes hP
      ((exts.map Int.toNat).prod - source.elements) 0 source.elements
      (transferLoop source.data source.dims source.elementBytes
        (exts.map fun e => (⟨1, e⟩ : Dimension))
        (List.range (shape.extentAt 0).toNat) source.elements
        (lowerBounds source.dims)
        (lowerBounds (exts.map fun e => (⟨1, e⟩ : Dimension)))
        (List.replicate ((exts.map Int.toNat).prod * source.elementBytes) 0)).1
      (transferLoop source.data source.dims source.elementBytes
        (exts.map fun e => (⟨1, e⟩ : Dimension))
        (List.range (shape.extentAt 0).toNat) source.elements
        (lowerBounds source.dims)
        (lowerBounds (exts.map fun e => (⟨1, e⟩ : Dimension)))
        (List.replicate ((exts.map Int.toNat).prod * source.elementBytes) 0)).2
      hP (by rw [htot]; omega)
      (by rw [hlen1, List.length_replicate]
          have : source.elements + ((exts.map Int.toNat).prod - source.elements) =
            (exts.map Int.toNat).prod := by omega
          rw [this, Nat.mul_comm])
      (fun _ => hsub1)
    rw [subAt_zero, hrlen] at hhit2 hmiss2
    have hread : readBytes (transferLoop p.data p.dims source.elementBytes
        (exts.map fun e => (⟨1, e⟩ : Dimension))
        (List.range (shape.extentAt 0).toNat)
        ((exts.map Int.toNat).prod - source.elements) (lowerBounds p.dims)
        (transferLoop source.data source.dims source.elementBytes
          (exts.map fun e => (⟨1, e⟩ : Dimension))
          (List.range (shape.extentAt 0).toNat) source.elements
          (lowerBounds source.dims)
          (lowerBounds (exts.map fun e => (⟨1, e⟩ : Dimension)))
          (List.replicate ((exts.map Int.toNat).prod * source.elementBytes)
            0)).1
        (transferLoop source.data source.dims source.elementBytes
          (exts.map fun e => (⟨1, e⟩ : Dimension))
          (List.range (shape.extentAt 0).toNat) source.elements
          (lowerBounds source.dims)
          (lowerBounds (exts.map fun e => (⟨1, e⟩ : Dimension)))
          (List.replicate ((exts.map Int.toNat).prod * source.elementBytes)
            0)).2).2
        (source.elementBytes * t) source.elementBytes =
        readBytes (transferLoop source.data source.dims source.elementBytes
          (exts.map fun e => (⟨1, e⟩ : Dimension))
          (List.range (shape.extentAt 0).toNat) source.elements
          (lowerBounds source.dims)
          (lowerBounds (exts.map fun e => (⟨1, e⟩ : Dimension)))
          (List.replicate ((exts.map Int.toNat).prod * source.elementBytes)
            0)).2 (source.elementBytes * t) source.elementBytes := by
      apply readBytes_ext
      intro i hi
      apply hmiss2
      left
      have hmul : source.elementBytes * (t + 1) ≤
          source.elementBytes * source.elements :=
        Nat.mul_le_mul_left _ (by omega)
      have hmul2 : source.elementBytes * (t + 1) =
          source.elementBytes * t + source.elementBytes := by ring
      omega
    rw [hread]
    have := hhit1 t ht
    rw [Nat.zero_add, Nat.mod_eq_of_lt (by rw [← elements_def]; exact ht)]
      at this
    exact this
  · -- the pad-sourced blocks are the pad elements taken cyclically
    intro t ht
    obtain ⟨hlen2, hmiss2, hhit2⟩ := transferLoop_data p.data p.dims
      (exts.map fun e => (⟨1, e⟩ : Dimension)) source.elementBytes hP
      ((exts.map Int.toNat).prod - source.elements) 0 source.elements
      (transferLoop source.data source.dims source.elementBytes
        (exts.map fun e => (⟨1, e⟩ : Dimension))
        (List.range (shape.extentAt 0).toNat) source.elements
        (lowerBounds source.dims)
        (lowerBounds (exts.map fun e => (⟨1, e⟩ : Dimension)))
        (List.replicate ((exts.map Int.toNat).prod * source.elementBytes) 0)).1
      (transferLoop source.data source.dims source.elementBytes
        (exts.map fun e => (⟨1, e⟩ : Dimension))
        (List.range (shape.extentAt 0).toNat) source.elements
        (lowerBounds source.dims)
        (lowerBounds (exts.map fun e => (⟨1, e⟩ : Dimension)))
        (List.replicate ((exts.map Int.toNat).prod * source.elementBytes) 0)).2
      hP (by rw [htot]; omega)
      (by have hlen1 : (transferLoop source.data source.dims source.elementBytes
            (exts.map fun e => (⟨1, e⟩ : Dimension))
            (List.range (shape.extentAt 0).toNat) source.elements
            (lowerBounds source.dims)
            (lowerBounds (exts.map fun e => (⟨1, e⟩ : Dimension)))
            (List.replicate ((exts.map Int.toNat).prod * source.elementBytes)
              0)).2.length =
            (List.replicate ((exts.map Int.toNat).prod * source.elementBytes)
              0).length := by
            rcases Nat.eq_zero_or_pos source.elements with hz | hpos
            · rw [hz, transferLoop]
            · have hT : 0 < totalElements source.dims := by
                rw [← elements_def]; exact hpos
              rw [← subAt_zero source.dims, ← subAt_zero
                (exts.map fun e => (⟨1, e⟩ : Dimension)), ← hrlen]
              exact (transferLoop_data source.data source.dims
                (exts.map fun e => (⟨1, e⟩ : Dimension)) source.elementBytes
                hT source.elements 0 0
                (subAt (exts.map fun e => (⟨1, e⟩ : Dimension)) 0)
                (List.replicate
                  ((exts.map Int.toNat).prod * source.elementBytes) 0)
                hT (by rw [htot]; omega)
                (by rw [List.length_replicate, Nat.zero_add]
                    rw [Nat.mul_comm]
                    exact Nat.mul_le_mul_right _ (by omega))
                (fun _ => rfl)).1
          rw [hlen1, List.length_replicate]
          have harr : source.elements +
              ((exts.map Int.toNat).prod - source.elements) =
              (exts.map Int.toNat).prod := by omega
          rw [harr, Nat.mul_comm])
      (fun _ => hsub1)
    rw [subAt_zero, hrlen] at hhit2
    have := hhit2 t ht
    rw [Nat.zero_add] at this
    rw [← elements_def] at this
    exact this

/-- C5 witness: reshaping a 4-element source to shape [2, 2]. -/
theorem c5_reshape_identity_witness :
    ∃ r, RESHAPE sourceFour shapeTwoTwo none none = .ok r ∧
      ∀ t, t < sourceFour.elements →
        readBytes r.data (sourceFour.elementBytes * t) sourceFour.elementBytes =
        readBytes sourceFour.data (sourceFour.elementBytes * t)
          sourceFour.elementBytes :=
  c5_reshape_identity sourceFour shapeTwoTwo [2, 2] (by decide) (by decide)
    (by decide) (by decide) rfl (by decide)

/-- C4 witness: reshaping a 4-element source to shape [8] with pad
[77, 88], which is consumed cyclically. -/
theorem c4_reshape_grow_pad_witness :
    ∃ r, RESHAPE sourceFour shapeEight (some padTwo) none = .ok r ∧
      (∀ t, t < sourceFour.elements →
        readBytes r.data (sourceFour.elementBytes * t) sourceFour.elementBytes =
        readBytes sourceFour.data (sourceFour.elementBytes * t)
          sourceFour.elementBytes) ∧
      (∀ t, t < (([(8 : Int)].map Int.toNat).prod - sourceFour.elements) →
        readBytes r.data
          (sourceFour.elementBytes * (sourceFour.elements + t))
          sourceFour.elementBytes =
        readBytes padTwo.data
          (sourceFour.elementBytes * (t % padTwo.elements))
          sourceFour.elementBytes) :=
  c4_reshape_grow_pad sourceFour shapeEight padTwo [8] (by decide) (by decide)
    (by decide) (by decide) rfl (by decide) (by decide) (by decide)

/-- C1: the pad sufficiency check is inverted in the code: with fewer
result elements than source elements and no pad, the check fires fatally
(the claim says pad is optional there), while with more result elements
than source elements and no pad the sufficiency check does not fire at
all and the code instead dereferences the null pad in the transfer
loop. -/
theorem c1_pad_check_inverted :
    RESHAPE sourceTwo shapeOne none none =
      .error "CHECK padElements positive" ∧
    RESHAPE sourceOne shapeTwo none none = .error "null pad dereference" :=
  ⟨rfl, rfl⟩

/-- C2: shrinking (M < N) with no pad and no order does not succeed:
the inverted sufficiency check aborts the call; supplying any non-empty
pad lets the call through and the result then does hold the first M
source elements. -/
theorem c2_shrink_no_pad_bug :
    RESHAPE sourceThree shapeTwo none none =
      .error "CHECK padElements positive" ∧
    RESHAPE sourceThree shapeTwo (some padOne) none = .ok
      ⟨true, 1, [⟨1, 2⟩], [7, 8],
        some ⟨none, [], true⟩⟩ :=
  ⟨rfl, rfl⟩

/-- C3: ORDER= values are decoded at the shape element width, not at the
order descriptor element width: with an 8-byte shape and a 1-byte order
holding the valid permutation [2, 1], the call aborts on the order value
check, although decoding each order element at the order descriptor
width yields the in-range values 2 and 1. -/
theorem c3_order_decode_width_bug :
    RESHAPE sourceSix shapeWide none (some orderSwap) =
      .error "CHECK order value" ∧
    GetInt64 orderSwap.data 0 orderSwap.elementBytes = some 2 ∧
    GetInt64 orderSwap.data 1 orderSwap.elementBytes = some 1 ∧
    orderSwap.elementBytes = 1 ∧ shapeWide.elementBytes = 8 :=
  ⟨rfl, rfl, rfl, rfl, rfl⟩

/-- C8: an empty shape with a source of two elements and no pad aborts
on the inverted sufficiency check instead of returning a rank-0 result;
when the check happens to pass (a one-element source, or an empty source
with a pad) the rank-0 result holds the first source element,
respectively the first pad element. -/
theorem c8_rank0_shape_bug :
    RESHAPE sourceTwo shapeEmpty none none =
      .error "CHECK padElements positive" ∧
    RESHAPE sourceOne shapeEmpty none none = .ok
      ⟨true, 1, [], [5], some ⟨none, [], true⟩⟩ ∧
    RESHAPE sourceEmpty shapeEmpty (some padOne) none = .ok
      ⟨true, 1, [], [9], some ⟨none, [], true⟩⟩ :=
  ⟨rfl, rfl, rfl⟩

/-- C10: every result returned by RESHAPE carries an addendum with the
DoNotFinalize flag set. -/
theorem c10_do_not_finalize (source shape : Descriptor)
    (pad order : Option Descriptor) (r : Descriptor)
    (hok : RESHAPE source shape pad order = .ok r) :
    ∃ a, r.addendum = some a ∧ a.doNotFinalize = true :=
  ⟨finishAddendum source (createAddendum source),
    RESHAPE_ok_addendum source shape pad order r hok,
    finishAddendum_flag source (createAddendum source)⟩

/-- C10 witness: the reshape of a 4-element source to [2, 2]. -/
theorem c10_do_not_finalize_witness :
    ∃ a, (⟨true, 1, [⟨1, 2⟩, ⟨1, 2⟩], [10, 20, 30, 40],
        some ⟨none, [], true⟩⟩ : Descriptor).addendum = some a ∧
      a.doNotFinalize = true :=
  c10_do_not_finalize sourceFour shapeTwoTwo none none
    ⟨true, 1, [⟨1, 2⟩, ⟨1, 2⟩], [10, 20, 30, 40], some ⟨none, [], true⟩⟩
    rfl

/-- C7: when the source carries an addendum with a derived type of K
length type parameters, the result addendum carries the same K values
verbatim and has the DoNotFinalize flag set. -/
theorem c7_addendum_propagation (source shape : Descriptor)
    (pad order : Option Descriptor) (r : Descriptor)
    (srcAdd : DescriptorAddendum) (dt : DerivedType)
    (hsa : source.addendum = some srcAdd)
    (hdt : srcAdd.derivedType = some dt)
    (hlen : srcAdd.lenParameterValues.length = dt.lenParameters)
    (hok : RESHAPE source shape pad order = .ok r) :
    ∃ ra, r.addendum = some ra ∧ ra.doNotFinalize = true ∧
      ra.lenParameterValues = srcAdd.lenParameterValues := by
  refine ⟨finishAddendum source (createAddendum source),
    RESHAPE_ok_addendum source shape pad order r hok,
    finishAddendum_flag source (createAddendum source), ?_⟩
  have hca : (createAddendum source).lenParameterValues =
      List.replicate dt.lenParameters 0 := by
    simp only [createAddendum, hsa, Option.some_bind, hdt]
  simp only [finishAddendum, hsa, Option.some_bind, hdt]
  rw [hca, ← hlen, copyLenParamsLoop_eq_src srcAdd.lenParameterValues
    srcAdd.lenParameterValues.length rfl]

/-- C7 witness: a derived-type source with length parameters [11, 22]. -/
theorem c7_addendum_propagation_witness :
    ∃ ra, (⟨false, 1, [⟨1, 2⟩], [7, 9],
        some ⟨some ⟨2⟩, [11, 22], true⟩⟩ : Descriptor).addendum = some ra ∧
      ra.doNotFinalize = true ∧
      ra.lenParameterValues = (⟨some ⟨2⟩, [11, 22],
        false⟩ : DescriptorAddendum).lenParameterValues :=
  c7_addendum_propagation sourceDerived shapeTwo none none
    ⟨false, 1, [⟨1, 2⟩], [7, 9], some ⟨some ⟨2⟩, [11, 22], true⟩⟩
    ⟨some ⟨2⟩, [11, 22], false⟩ ⟨2⟩ (by decide) (by decide) (by decide)
    rfl

/-- C6: with ORDER= absent the dimension order is the identity; with
ORDER= present, a successful call decodes, for every position j below
the result rank, a value k with 1 <= k <= resultRank that no other
position decodes to (out-of-range or duplicate values can never yield a
successful dimension-order derivation), and maps dimOrder[k-1] = j. -/
theorem c6_dim_order :
    (∀ sheb rank, computeDimOrder none sheb rank = .ok (List.range rank)) ∧
    (∀ (ord : Descriptor) (sheb rank : Nat) (d : List Nat),
      rank ≤ maxRank → computeDimOrder (some ord) sheb rank = .ok d →
      ∀ j, j < rank → ∃ k : Int,
        orderValue ord sheb (ord.lowerBoundAt 0 + (j : Int)) = some k ∧
        1 ≤ k ∧ k ≤ (rank : Int) ∧ d.getD (k - 1).toNat 0 = j ∧
        ∀ j2, j2 < rank → j2 ≠ j →
          orderValue ord sheb (ord.lowerBoundAt 0 + (j2 : Int)) ≠ some k) := by
  constructor
  · intro sheb rank
    rfl
  · intro ord sheb rank d hrk hok
    rw [computeDimOrder] at hok
    split at hok
    · split at hok
      · split at hok
        · have hz : ord.lowerBoundAt 0 = ord.lowerBoundAt 0 + ((0 : Nat) : Int) := by
            simp
          rw [hz] at hok
          obtain ⟨hlen, hseen, hval⟩ := orderLoop_ok_spec ord sheb rank rank 0
            (List.replicate maxRank false) (List.replicate rank 0) d
            (List.length_replicate ..) (List.length_replicate ..) hrk hok
          intro j hj
          obtain ⟨k, hv, h1, h2, _, hmap⟩ := hval j hj
          rw [Nat.zero_add] at hv hmap
          refine ⟨k, hv, h1, h2, hmap, ?_⟩
          intro j2 hj2 hne hv2
          obtain ⟨k2, hv2e, _, _, _, hmap2⟩ := hval j2 hj2
          rw [Nat.zero_add] at hv2e hmap2
          rw [hv2] at hv2e
          obtain rfl : k2 = k := (Option.some.inj hv2e).symm
          rw [hmap] at hmap2
          exact hne hmap2.symm
        · exact Except.noConfusion hok
      · exact Except.noConfusion hok
    · exact Except.noConfusion hok

/-- C6 witness: order [2, 1] decoded at width 1 for a rank-2 result
yields dimOrder [1, 0]; with ORDER= absent the order is the identity. -/
theorem c6_dim_order_witness :
    computeDimOrder none 1 2 = .ok (List.range 2) ∧
    ∃ k : Int,
      orderValue orderSwap 1 (orderSwap.lowerBoundAt 0 + ((0 : Nat) : Int)) =
        some k ∧
      1 ≤ k ∧ k ≤ ((2 : Nat) : Int) ∧ ([1, 0] : List Nat).getD (k - 1).toNat 0 = 0 ∧
      ∀ j2 : Nat, j2 < 2 → j2 ≠ 0 →
        orderValue orderSwap 1 (orderSwap.lowerBoundAt 0 + (j2 : Int)) ≠
          some k :=
  ⟨c6_dim_order.1 1 2,
    c6_dim_order.2 orderSwap 1 2 [1, 0] (by decide) rfl 0 (by decide)⟩

/-- C9: the integer decoder returns a value exactly for the byte-width
tags 1, 2, 4 and 8 — the value is the stored unsigned encoding
reinterpreted as a signed integer of that width, lying in the 64-bit
signed range — and any other width tag yields the fatal no-case path. -/
theorem c9_getint64_widths (data : List Nat) (off bytes : Nat)
    (h256 : ∀ b ∈ data, b < 256) :
    ((bytes = 1 ∨ bytes = 2 ∨ bytes = 4 ∨ bytes = 8) →
      ∃ v : Int, GetInt64 data off bytes = some v ∧
        -(2 ^ 63 : Int) ≤ v ∧ v < 2 ^ 63 ∧
        -(2 ^ (8 * bytes - 1) : Int) ≤ v ∧ v < 2 ^ (8 * bytes - 1) ∧
        v % 2 ^ (8 * bytes) =
          (decodeUnsigned (readBytes data off bytes) : Int)) ∧
    (¬(bytes = 1 ∨ bytes = 2 ∨ bytes = 4 ∨ bytes = 8) →
      GetInt64 data off bytes = none) := by
  constructor
  · intro hb
    obtain ⟨v, hv, hl, hu, hm⟩ := GetInt64_valid data off bytes h256 hb
    have hpow : (2 : Int) ^ (8 * bytes - 1) ≤ 2 ^ 63 :=
      pow_le_pow_right₀ one_le_two (by omega)
    exact ⟨v, hv, by omega, by omega, hl, hu, hm⟩
  · intro hb
    rw [GetInt64, if_neg hb]

/-- C9 witness: decoding the single byte 255 at width 1 gives a value
(the sign-extended -1); width 3 is rejected. -/
theorem c9_getint64_widths_witness :
    (∃ v : Int, GetInt64 [255] 0 1 = some v ∧
      -(2 ^ 63 : Int) ≤ v ∧ v < 2 ^ 63 ∧
      -(2 ^ (8 * 1 - 1) : Int) ≤ v ∧ v < 2 ^ (8 * 1 - 1) ∧
      v % 2 ^ (8 * 1) = (decodeUnsigned (readBytes [255] 0 1) : Int)) ∧
    GetInt64 [255] 0 3 = none :=
  ⟨(c9_getint64_widths [255] 0 1 (by decide)).1 (Or.inl rfl),
    (c9_getint64_widths [255] 0 3 (by decide)).2 (by decide)⟩

end Fortran.runtime
